import Mathlib

/-!
Verification of the enigma-rust cipher library (an Enigma M3 simulator).

The definitions below are a shallow embedding of the Rust sources:
`src/lib.rs` (characters, errors, plugboard, machine), `src/rotor.rs`
(rotors) and `src/wiring.rs` (wiring tables and the standard catalog).
Rust `u8` values are modelled as `Nat`; every arithmetic operation the
source performs on `u8` is either explicitly reduced `% 256` (the `as u8`
casts) or keeps all operands far below 256 for the values reachable
through the public API, so plain `Nat` arithmetic coincides with the
source's `u8` arithmetic at every use site covered by a theorem.
Mutation of `&mut self` receivers is modelled by explicit state passing:
each mutating method returns its result together with the new state.
-/

/-- Model of `enigma::EnigmaError` (src/lib.rs). -/
inductive EnigmaError where
  | InvalidChar (c : Char)
  | InvalidNumber (n : Nat)
  | InvalidPosition (s : String)
  | InvalidSteckerbrettString (s : String)
  | UnsupportedCharacter (c : Char)
deriving DecidableEq, Repr

/-- Model of `enigma::EnigmaChar` (src/lib.rs): the position in the
alphabet (`internal`, a `u8` in the source) together with a case flag. -/
structure EnigmaChar where
  internal : Nat
  uppercase : Bool
deriving DecidableEq, Repr

/-- Rust's `value as u8` cast on a `char`: truncation of the code point
to its low byte. -/
def charAsU8 (c : Char) : Nat :=
  c.toNat % 256

/-- Model of `impl TryFrom<char> for EnigmaChar` (src/lib.rs): the byte
obtained by the `as u8` cast must land in the ASCII letter ranges. -/
def EnigmaChar.try_from (value : Char) : Except EnigmaError EnigmaChar :=
  if 65 ≤ charAsU8 value ∧ charAsU8 value ≤ 90 then
    .ok { internal := charAsU8 value - 65, uppercase := true }
  else if 97 ≤ charAsU8 value ∧ charAsU8 value ≤ 122 then
    .ok { internal := charAsU8 value - 97, uppercase := false }
  else
    .error (.InvalidChar value)

/-- Model of `impl From<&EnigmaChar> for char` (src/lib.rs): the source
adds 65 or 97 in `u8` arithmetic (hence the `% 256`) and casts to `char`
(total on bytes). -/
def EnigmaChar.toChar (c : EnigmaChar) : Char :=
  Char.ofNat ((c.internal + if c.uppercase then 65 else 97) % 256)

/-- Model of `enigma::wiring::Wiring` (src/wiring.rs). Both arrays have
26 entries in the source (`[u8; 26]`); the embedding stores them as
lists, always of length 26 for every value produced by `Wiring.new`. -/
structure Wiring where
  wiring : List Nat
  reverse_wiring : List Nat
  notch_1 : Option Nat
  notch_2 : Option Nat
deriving DecidableEq, Repr

instance : Inhabited Wiring :=
  ⟨{ wiring := [], reverse_wiring := [], notch_1 := none, notch_2 := none }⟩

/-- Rust's `char::to_ascii_uppercase`: subtract 32 from ASCII lowercase
letters, leave every other character unchanged. -/
def toAsciiUppercase (c : Char) : Char :=
  if 97 ≤ c.toNat ∧ c.toNat ≤ 122 then Char.ofNat (c.toNat - 32) else c

/-- Conversion of an optional notch letter in `Wiring::new`
(src/wiring.rs): `notch.map(EnigmaChar::try_from).transpose()?.map(|x| x.internal)`. -/
def notchToNat (notch : Option Char) : Except EnigmaError (Option Nat) :=
  match notch with
  | none => .ok none
  | some c =>
    match EnigmaChar.try_from c with
    | .error err => .error err
    | .ok e => .ok (some e.internal)

/-- One iteration of the construction loop in `Wiring::new`
(src/wiring.rs, `for i in 0..=25`): `wiring[i]` is the alphabet position
of `template[i]`, and `reverse_wiring[i]` is the first index `j` with
`template[j].to_ascii_uppercase()` equal to the `i`-th uppercase letter,
failing with `InvalidNumber(i)` when no such index exists. -/
def Wiring.buildAt (template : List Char) (i : Nat) : Except EnigmaError (Nat × Nat) :=
  match EnigmaChar.try_from (template.getD i 'A') with
  | .error err => .error err
  | .ok e =>
    let ichar := EnigmaChar.toChar { internal := i, uppercase := true }
    match template.findIdx? (fun x => toAsciiUppercase x == ichar) with
    | some reverse_char => .ok (e.internal, reverse_char)
    | none => .error (.InvalidNumber i)

/-- The construction loop of `Wiring::new` for indices `< n`, in the
source's ascending order (so the first failing index reports first). -/
def Wiring.buildRange (template : List Char) : Nat → Except EnigmaError (List (Nat × Nat))
  | 0 => .ok []
  | n + 1 =>
    match Wiring.buildRange template n with
    | .error err => .error err
    | .ok prev =>
      match Wiring.buildAt template n with
      | .error err => .error err
      | .ok entry => .ok (prev ++ [entry])

/-- Model of `Wiring::new` (src/wiring.rs): convert the two optional
notch letters, then run the index loop for `i in 0..=25`. -/
def Wiring.new (template : List Char) (notch_1 notch_2 : Option Char) : Except EnigmaError Wiring :=
  match notchToNat notch_1 with
  | .error err => .error err
  | .ok n1 =>
    match notchToNat notch_2 with
    | .error err => .error err
    | .ok n2 =>
      match Wiring.buildRange template 26 with
      | .error err => .error err
      | .ok entries =>
        .ok { wiring := entries.map Prod.fst, reverse_wiring := entries.map Prod.snd,
              notch_1 := n1, notch_2 := n2 }

/-- Model of the `.unwrap()` applied to the catalog entries in the
`lazy_static!` block of src/wiring.rs; the error case never occurs for
the catalog templates. -/
def unwrapWiring : Except EnigmaError Wiring → Wiring
  | .ok w => w
  | .error _ => default

/-- Template of rotor I (src/wiring.rs). -/
def templateI : List Char :=
  ['E', 'K', 'M', 'F', 'L', 'G', 'D', 'Q', 'V', 'Z', 'N', 'T', 'O', 'W', 'Y', 'H', 'X',
   'U', 'S', 'P', 'A', 'I', 'B', 'R', 'C', 'J']

/-- Template of rotor II (src/wiring.rs). -/
def templateII : List Char :=
  ['A', 'J', 'D', 'K', 'S', 'I', 'R', 'U', 'X', 'B', 'L', 'H', 'W', 'T', 'M', 'C', 'Q',
   'G', 'Z', 'N', 'P', 'Y', 'F', 'V', 'O', 'E']

/-- Template of rotor III (src/wiring.rs). -/
def templateIII : List Char :=
  ['B', 'D', 'F', 'H', 'J', 'L', 'C', 'P', 'R', 'T', 'X', 'V', 'Z', 'N', 'Y', 'E', 'I',
   'W', 'G', 'A', 'K', 'M', 'U', 'S', 'Q', 'O']

/-- Template of reflector UKW-B (src/wiring.rs). -/
def templateUKW_B : List Char :=
  ['Y', 'R', 'U', 'H', 'Q', 'S', 'L', 'D', 'P', 'X', 'N', 'G', 'O', 'K', 'M', 'I', 'E',
   'B', 'F', 'Z', 'C', 'W', 'V', 'J', 'A', 'T']

/-- Catalog entry `I` (src/wiring.rs, `lazy_static!`): rotor I with its
turnover notch at 'Q'. -/
def StandardWiring.I : Wiring :=
  unwrapWiring (Wiring.new templateI (some 'Q') none)

/-- Catalog entry `II` (src/wiring.rs): rotor II, notch at 'E'. -/
def StandardWiring.II : Wiring :=
  unwrapWiring (Wiring.new templateII (some 'E') none)

/-- Catalog entry `III` (src/wiring.rs): rotor III, notch at 'V'. -/
def StandardWiring.III : Wiring :=
  unwrapWiring (Wiring.new templateIII (some 'V') none)

/-- Catalog entry `UKW_B` (src/wiring.rs): reflector B, no notches. -/
def StandardWiring.UKW_B : Wiring :=
  unwrapWiring (Wiring.new templateUKW_B none none)

/-- Model of `enigma::Steckerbrett` (src/lib.rs): the `HashMap<u8, u8>`
is modelled as a partial function on alphabet positions. -/
def Steckerbrett : Type :=
  Nat → Option Nat

/-- The empty plugboard, `steckerbrett!()` (src/lib.rs). -/
def Steckerbrett.empty : Steckerbrett :=
  fun _ => none

/-- `HashMap::insert`: later insertions overwrite earlier ones. -/
def Steckerbrett.insert (s : Steckerbrett) (k v : Nat) : Steckerbrett :=
  fun x => if x = k then some v else s x

/-- Model of `Steckerbrett::get` (src/lib.rs): replace the position by
its mapped partner when one exists, otherwise leave it unchanged. -/
def Steckerbrett.get (s : Steckerbrett) (c : EnigmaChar) : EnigmaChar :=
  match s c.internal with
  | some val => { c with internal := val }
  | none => c

/-- One iteration of `impl TryFrom<&[(char, char)]> for Steckerbrett`
(src/lib.rs): convert both characters, then register both directions. -/
def Steckerbrett.insertPair (s : Steckerbrett) (pair : Char × Char) : Except EnigmaError Steckerbrett := do
  let c ← EnigmaChar.try_from pair.1
  let d ← EnigmaChar.try_from pair.2
  .ok ((s.insert c.internal d.internal).insert d.internal c.internal)

/-- Model of `impl TryFrom<&[(char, char)]> for Steckerbrett`
(src/lib.rs): fold over the pair list starting from the empty board. -/
def Steckerbrett.try_from_pairs (pairs : List (Char × Char)) : Except EnigmaError Steckerbrett :=
  pairs.foldlM Steckerbrett.insertPair Steckerbrett.empty

/-- Accumulating pass over the characters for `split_whitespace`: `cur`
holds the current token's characters in reverse order. -/
def splitWsGo (cur : List Char) : List Char → List (List Char)
  | [] => if cur.isEmpty then [] else [cur.reverse]
  | c :: rest =>
    if c.isWhitespace then
      if cur.isEmpty then splitWsGo [] rest
      else cur.reverse :: splitWsGo [] rest
    else splitWsGo (c :: cur) rest

/-- Rust's `str::split_whitespace`: split on whitespace and drop empty
fragments. (Lean's `Char.isWhitespace` covers the ASCII whitespace
characters; no claim exercises non-ASCII whitespace.) -/
def split_whitespace (s : String) : List String :=
  (splitWsGo [] s.data).map (fun l => String.mk l)

/-- The token closure inside `impl TryFrom<&str> for Steckerbrett`
(src/lib.rs): a token parses only when its byte length (`str::len`) is
exactly 2, in which case its first two characters form the pair. (When
a 2-byte token holds a single 2-byte character the source panics on
`unwrap`; no claim exercises that input, and the embedding returns the
default character there.) -/
def parseSteckerToken (p : String) : Option (Char × Char) :=
  if p.utf8ByteSize ≠ 2 then none
  else some (p.data.getD 0 'A', p.data.getD 1 'A')

/-- Model of `impl TryFrom<&str> for Steckerbrett` (src/lib.rs): parse
every whitespace-delimited token; any failing token yields
`InvalidPosition(value)` (the source constructs this error kind, not
`InvalidSteckerbrettString`); otherwise build from the pair list. -/
def Steckerbrett.try_from_str (s : String) : Except EnigmaError Steckerbrett :=
  match (split_whitespace s).mapM parseSteckerToken with
  | none => .error (.InvalidPosition s)
  | some pairs => Steckerbrett.try_from_pairs pairs

/-- Model of `enigma::rotor::Rotor` (src/rotor.rs): an owned wiring plus
a mutable position. -/
structure Rotor where
  wiring : Wiring
  position : Nat
deriving DecidableEq, Repr

/-- `Rotor::new` (src/rotor.rs): initial position 0. -/
def Rotor.new (wiring : Wiring) : Rotor :=
  { wiring := wiring, position := 0 }

/-- `Rotor::rotate` (src/rotor.rs): advance one step modulo 26. -/
def Rotor.rotate (r : Rotor) : Rotor :=
  { r with position := (r.position + 1) % 26 }

/-- `Rotor::set_position` (src/rotor.rs): overwrite the position with
the character's alphabet position. The source returns `Ok(())`
unconditionally, so the embedding is a pure update. -/
def Rotor.set_position (r : Rotor) (pos : EnigmaChar) : Rotor :=
  { r with position := pos.internal }

/-- `Rotor::has_notch` (src/rotor.rs): the current position equals one
of the (at most two) notch positions. -/
def Rotor.has_notch (r : Rotor) : Bool :=
  (match r.wiring.notch_1 with
   | some x => x == r.position
   | none => false) ||
  (match r.wiring.notch_2 with
   | some x => x == r.position
   | none => false)

/-- `Rotor::get_position` (src/rotor.rs): the position rendered as an
uppercase character. -/
def Rotor.get_position (r : Rotor) : EnigmaChar :=
  { internal := r.position, uppercase := true }

/-- `Rotor::get_for` (src/rotor.rs): the signal-path transformation.
The incoming contact is shifted by the rotor position, looked up in the
forward (or, when `reversed`, the backward) table, and shifted back.
All `u8` operands stay below 256 whenever the table entries are below
26 (as for every constructed wiring), so `Nat` arithmetic matches. -/
def Rotor.get_for (r : Rotor) (input : EnigmaChar) (reversed : Bool) : Except EnigmaError EnigmaChar :=
  let inchar := (input.internal + r.position) % 26
  let outchar :=
    ((if reversed then r.wiring.reverse_wiring else r.wiring.wiring).getD inchar 0
      + 26 - r.position) % 26
  .ok { input with internal := outchar }

/-- Model of `enigma::Enigma` (src/lib.rs): reflector, three rotors and
a plugboard. -/
structure Enigma where
  ukw : Rotor
  rotor_l : Rotor
  rotor_m : Rotor
  rotor_r : Rotor
  steckerbrett : Steckerbrett

/-- `Enigma::new` (src/lib.rs): wrap each wiring in a fresh rotor at
position 0. -/
def Enigma.new (ukw wiring_l wiring_m wiring_r : Wiring) (stecker : Steckerbrett) : Enigma :=
  { ukw := Rotor.new ukw
    rotor_l := Rotor.new wiring_l
    rotor_m := Rotor.new wiring_m
    rotor_r := Rotor.new wiring_r
    steckerbrett := stecker }

/-- `Enigma::set_position` (src/lib.rs): set the three rotor positions
in order left, middle, right, stopping at the first character that
fails conversion. Rotors already set before the failure keep their new
positions (the source mutates `self` in place before the `?`). -/
def Enigma.set_position (e : Enigma) (rotor_l rotor_m rotor_r : Option Char) : Except EnigmaError Unit × Enigma :=
  let step_l : Except EnigmaError Enigma :=
    match rotor_l with
    | none => .ok e
    | some c => (EnigmaChar.try_from c).map
        (fun ec => { e with rotor_l := e.rotor_l.set_position ec })
  match step_l with
  | .error err => (.error err, e)
  | .ok e1 =>
    let step_m : Except EnigmaError Enigma :=
      match rotor_m with
      | none => .ok e1
      | some c => (EnigmaChar.try_from c).map
          (fun ec => { e1 with rotor_m := e1.rotor_m.set_position ec })
    match step_m with
    | .error err => (.error err, e1)
    | .ok e2 =>
      match rotor_r with
      | none => (.ok (), e2)
      | some c =>
        match EnigmaChar.try_from c with
        | .error err => (.error err, e2)
        | .ok ec => (.ok (), { e2 with rotor_r := e2.rotor_r.set_position ec })

/-- `Enigma::set_position_str` (src/lib.rs): reject strings whose byte
length (`str::len`) is not 3, otherwise feed the first three characters
(as options) to `set_position`. -/
def Enigma.set_position_str (e : Enigma) (position : String) : Except EnigmaError Unit × Enigma :=
  if position.utf8ByteSize ≠ 3 then
    (.error (.InvalidPosition position), e)
  else
    e.set_position position.data[0]? position.data[1]? position.data[2]?

/-- `Enigma::get_position` (src/lib.rs): left, middle, right rotor
positions as characters. -/
def Enigma.get_position (e : Enigma) : List Char :=
  [e.rotor_l.get_position.toChar, e.rotor_m.get_position.toChar, e.rotor_r.get_position.toChar]

/-- `Enigma::get_position_str` (src/lib.rs): the three position
characters concatenated. -/
def Enigma.get_position_str (e : Enigma) : String :=
  String.mk e.get_position

/-- `Enigma::turn_rotors` (src/lib.rs): snapshot the right and middle
notch flags, then rotate the right rotor, rotate the middle rotor when
the right flag was set, and rotate the middle and left rotors when the
middle flag was set. -/
def Enigma.turn_rotors (e : Enigma) : Enigma :=
  let notch_r := e.rotor_r.has_notch
  let notch_m := e.rotor_m.has_notch
  let e1 := { e with rotor_r := e.rotor_r.rotate }
  let e2 := if notch_r then { e1 with rotor_m := e1.rotor_m.rotate } else e1
  if notch_m then
    { e2 with rotor_m := e2.rotor_m.rotate, rotor_l := e2.rotor_l.rotate }
  else e2

/-- `Enigma::_internal_get_for_char` (src/lib.rs): convert the input
(re-signalling `InvalidChar` as `UnsupportedCharacter` without touching
the rotors), then turn the rotors and run the signal path: plugboard,
right-middle-left forward, reflector, left-middle-right backward,
plugboard. -/
def Enigma.internal_get_for_char (e : Enigma) (c : Char) : Except EnigmaError EnigmaChar × Enigma :=
  match EnigmaChar.try_from c with
  | .error (.InvalidChar c) => (.error (.UnsupportedCharacter c), e)
  | .error err => (.error err, e)
  | .ok c0 =>
    let e1 := e.turn_rotors
    let res : Except EnigmaError EnigmaChar := do
      let c1 := e1.steckerbrett.get c0
      let c2 ← e1.rotor_r.get_for c1 false
      let c3 ← e1.rotor_m.get_for c2 false
      let c4 ← e1.rotor_l.get_for c3 false
      let c5 ← e1.ukw.get_for c4 false
      let c6 ← e1.rotor_l.get_for c5 true
      let c7 ← e1.rotor_m.get_for c6 true
      let c8 ← e1.rotor_r.get_for c7 true
      .ok (e1.steckerbrett.get c8)
    (res, e1)

/-- `Enigma::get_for_char` (src/lib.rs): the per-character entry point,
mapping the internal character back to a `char`. -/
def Enigma.get_for_char (e : Enigma) (c : Char) : Except EnigmaError Char × Enigma :=
  let (res, e1) := e.internal_get_for_char c
  (res.map EnigmaChar.toChar, e1)

/-- The character loop of `Enigma::get_for_str` (src/lib.rs):
supported characters are encoded (case forced uppercase unless
`preserve_case`), unsupported characters are dropped or preserved, and
any other error aborts the loop. -/
def Enigma.get_for_str_loop (e : Enigma) (chars : List Char) (preserve_unsupported preserve_case : Bool) (out : String) : Except EnigmaError String × Enigma :=
  match chars with
  | [] => (.ok out, e)
  | c :: rest =>
    match e.internal_get_for_char c with
    | (.ok ec, e1) =>
      let ec := if !preserve_case then { ec with uppercase := true } else ec
      e1.get_for_str_loop rest preserve_unsupported preserve_case (out.push ec.toChar)
    | (.error (.UnsupportedCharacter uc), e1) =>
      if preserve_unsupported then
        e1.get_for_str_loop rest preserve_unsupported preserve_case (out.push uc)
      else
        e1.get_for_str_loop rest preserve_unsupported preserve_case out
    | (.error err, e1) => (.error err, e1)

/-- `Enigma::get_for_str` (src/lib.rs): run the character loop over the
string's characters with an empty accumulator. -/
def Enigma.get_for_str (e : Enigma) (str : String) (preserve_unsupported preserve_case : Bool) : Except EnigmaError String × Enigma :=
  e.get_for_str_loop str.data preserve_unsupported preserve_case ""


/-! ## Shared machines and helpers for the verification -/

/-- The machine of the spec's test vectors: reflector UKW-B, rotors
I/II/III (left to right), empty plugboard, all rotors at position 0
(position string "AAA"). -/
def standardEnigma : Enigma :=
  Enigma.new StandardWiring.UKW_B StandardWiring.I StandardWiring.II StandardWiring.III
    Steckerbrett.empty

/-- Decidable equality of `Except` results, for concrete evaluation of
the model. -/
instance exceptDecEq {ε α : Type} [DecidableEq ε] [DecidableEq α] : DecidableEq (Except ε α) :=
  fun a b =>
    match a, b with
    | .ok x, .ok y =>
      if h : x = y then .isTrue (by rw [h]) else .isFalse (by simp [h])
    | .error x, .error y =>
      if h : x = y then .isTrue (by rw [h]) else .isFalse (by simp [h])
    | .ok _, .error _ => .isFalse (by simp)
    | .error _, .ok _ => .isFalse (by simp)

/-- `EnigmaChar::try_from` only ever reports `InvalidChar` on failure. -/
theorem try_from_error {c : Char} {err : EnigmaError}
    (h : EnigmaChar.try_from c = .error err) : err = .InvalidChar c := by
  unfold EnigmaChar.try_from at h
  split at h
  · exact absurd h (by simp)
  · split at h
    · exact absurd h (by simp)
    · exact (Except.error.injEq _ _).mp h.symm

/-- When the input converts, the machine state after
`_internal_get_for_char` is exactly the turned machine: the signal path
touches only the travelling character, never the rotor positions. -/
theorem internal_get_state (e : Enigma) (c : Char) (c0 : EnigmaChar)
    (h : EnigmaChar.try_from c = .ok c0) :
    (e.internal_get_for_char c).2 = e.turn_rotors := by
  unfold Enigma.internal_get_for_char
  rw [h]

/-- The machine state returned by `get_for_char` is the state returned
by `_internal_get_for_char`. -/
theorem get_for_char_state (e : Enigma) (c : Char) :
    (e.get_for_char c).2 = (e.internal_get_for_char c).2 := rfl

/-! ## C2: the known test vector -/

/-- C2, counterexample: with reflector UKW-B, rotors I/II/III, an empty
plugboard and the default positions "AAA", encoding "test" does NOT
yield "olkr"; the code produces "olpf". ("olkr" is the crate's doctest
output for the plugboard A-Q, F-R, S-M.) -/
theorem C2_counterexample :
    (standardEnigma.get_for_str "test" false true).1 ≠ .ok "olkr" := by
  decide

/-- C2, amended: with reflector UKW-B, rotors I/II/III, empty plugboard
and default positions "AAA", encoding "test" (case preserved) yields
"olpf". -/
theorem C2_amended_thm :
    (standardEnigma.get_for_str "test" false true).1 = .ok "olpf" := by
  decide

/-! ## C3: stepping from position "AET" -/

/-- C3, counterexample: with rotors I/II/III and reflector UKW-B at
positions "AET", encoding one letter does NOT advance the positions to
"AEU": the middle rotor (II) is on its notch 'E', so the machine
double-steps to "BFU". -/
theorem C3_counterexample :
    (((standardEnigma.set_position_str "AET").2.get_for_char 'A').2.get_position_str = "BFU")
    ∧ ((((standardEnigma.set_position_str "AET").2.get_for_char 'A').2.get_position_str) ≠ "AEU") := by
  constructor
  · decide
  · decide

/-- C3, amended: with rotors I/II/III and reflector UKW-B, after setting
the positions to "AET", encoding any supported letter advances the
position string to "BFU" (double step: the middle rotor II sits on its
notch 'E', so the left and middle rotors advance together with the
right one). -/
theorem C3_amended_thm (c : Char) (c0 : EnigmaChar)
    (h : EnigmaChar.try_from c = .ok c0) :
    (((standardEnigma.set_position_str "AET").2.get_for_char c).2.get_position_str) = "BFU" := by
  rw [get_for_char_state, internal_get_state _ _ _ h]
  decide

/-- Witness for C3_amended_thm at the concrete letter 'A'. -/
theorem C3_amended_thm_witness :
    EnigmaChar.try_from 'A' = .ok { internal := 0, uppercase := true }
    ∧ (((standardEnigma.set_position_str "AET").2.get_for_char 'A').2.get_position_str) = "BFU" :=
  ⟨by decide, C3_amended_thm 'A' { internal := 0, uppercase := true } (by decide)⟩

/-! ## C5: non-ASCII characters and the `as u8` truncation -/

/-- C5, code divergence: the character 'Ł' (U+0141) is not an ASCII
letter, yet the per-character encode accepts it: its code point
truncated to a byte is 65 ('A'), so `EnigmaChar::try_from` succeeds,
the rotors turn (positions "AAA" to "AAB") and the encoded output 'B'
is returned instead of the `UnsupportedCharacter` failure the claim
requires. -/
theorem C5_code_divergence :
    (standardEnigma.get_for_char 'Ł').1 = .ok 'B'
    ∧ (standardEnigma.get_for_char 'Ł').2.get_position_str = "AAB"
    ∧ standardEnigma.get_position_str = "AAA" := by
  refine ⟨by decide, by decide, by decide⟩

/-! ## C8: plugboard construction from a malformed string -/

/-- Projection of the error of a plugboard construction result (the
plugboard itself is a function, so the result is not compared for
equality directly). -/
def steckerErrOf (r : Except EnigmaError Steckerbrett) : Option EnigmaError :=
  match r with
  | .error err => some err
  | .ok _ => none

/-- C8, code divergence: for the input "ABC" (a whitespace-delimited
token that is not exactly two letters), plugboard construction fails
with `InvalidPosition("ABC")`, the error kind dedicated to position
strings, and not with the dedicated plugboard error
`InvalidSteckerbrettString` (which the source never constructs). -/
theorem C8_code_divergence :
    steckerErrOf (Steckerbrett.try_from_str "ABC")
      = some (.InvalidPosition "ABC") := by
  decide

/-! ## C4: the rotor-stepping mechanism -/

/-- C4: one call of `turn_rotors` behaves as the claim states: with the
two notch flags snapshotted before any mutation, the right rotor always
advances one position; the middle rotor advances once when the
pre-step right flag was set and once more when the pre-step middle flag
was set (twice when both were); the left rotor advances exactly when
the pre-step middle flag was set. -/
theorem C4_thm (e : Enigma) :
    (e.turn_rotors).rotor_r.position = (e.rotor_r.position + 1) % 26
    ∧ (e.turn_rotors).rotor_m.position =
        (if e.rotor_r.has_notch && e.rotor_m.has_notch then (e.rotor_m.position + 2) % 26
         else if e.rotor_r.has_notch || e.rotor_m.has_notch then (e.rotor_m.position + 1) % 26
         else e.rotor_m.position)
    ∧ (e.turn_rotors).rotor_l.position =
        (if e.rotor_m.has_notch then (e.rotor_l.position + 1) % 26
         else e.rotor_l.position) := by
  unfold Enigma.turn_rotors Rotor.rotate
  cases hr : e.rotor_r.has_notch <;> cases hm : e.rotor_m.has_notch <;>
    simp [hr, hm] <;> omega

/-! ## C6: the rotor signal-path operation -/

/-- C6: for any rotor at position p in [0,25] and input at alphabet
position i in [0,25], `Rotor::get_for` always succeeds, selects the
forward table when `reversed` is false and the backward table when it
is true, sets the output position to
`(table[(i + p) % 26] + 26 - p) % 26`, and passes the `uppercase` flag
through unchanged. -/
theorem C6_thm (r : Rotor) (c : EnigmaChar) (reversed : Bool)
    (hp : r.position ≤ 25) (hi : c.internal ≤ 25) :
    r.get_for c reversed =
      .ok { internal :=
              ((if reversed then r.wiring.reverse_wiring else r.wiring.wiring).getD
                ((c.internal + r.position) % 26) 0 + 26 - r.position) % 26,
            uppercase := c.uppercase } := by
  cases reversed <;> rfl

/-- Witness for C6_thm: rotor I at position 0 maps input position 0
(letter A) to position 4 (letter E), forward. -/
theorem C6_thm_witness :
    (Rotor.new StandardWiring.I).position ≤ 25
    ∧ ({ internal := 0, uppercase := true } : EnigmaChar).internal ≤ 25
    ∧ (Rotor.new StandardWiring.I).get_for { internal := 0, uppercase := true } false =
        .ok { internal :=
                (((Rotor.new StandardWiring.I).wiring.wiring).getD
                  ((0 + (Rotor.new StandardWiring.I).position) % 26) 0 + 26
                  - (Rotor.new StandardWiring.I).position) % 26,
              uppercase := true } :=
  ⟨by decide, by decide,
   C6_thm (Rotor.new StandardWiring.I) { internal := 0, uppercase := true } false
     (by decide) (by decide)⟩

/-! ## C9: failed position setting and machine state -/

/-- Characterization of a failed `Enigma::set_position`: the right
rotor, reflector, plugboard and all wirings are untouched; if the first
requested character fails conversion nothing at all changed; if the
second does, the middle rotor is untouched (the left one may already be
set, since the source mutates in place before the failing `?`). -/
theorem set_position_err (e : Enigma) (o1 o2 o3 : Option Char) (err : EnigmaError)
    (h : (e.set_position o1 o2 o3).1 = .error err) :
    (e.set_position o1 o2 o3).2.rotor_r = e.rotor_r
    ∧ (e.set_position o1 o2 o3).2.ukw = e.ukw
    ∧ (e.set_position o1 o2 o3).2.steckerbrett = e.steckerbrett
    ∧ (e.set_position o1 o2 o3).2.rotor_l.wiring = e.rotor_l.wiring
    ∧ (e.set_position o1 o2 o3).2.rotor_m.wiring = e.rotor_m.wiring
    ∧ (∀ c, o1 = some c → EnigmaChar.try_from c = .error (.InvalidChar c) →
        (e.set_position o1 o2 o3).2 = e)
    ∧ (∀ c, o2 = some c → EnigmaChar.try_from c = .error (.InvalidChar c) →
        (e.set_position o1 o2 o3).2.rotor_m = e.rotor_m) := by
  unfold Enigma.set_position at h ⊢
  rcases o1 with _ | c1
  · rcases o2 with _ | c2
    · rcases o3 with _ | c3
      · simp_all [Rotor.set_position, Except.map]
      · rcases h3 : EnigmaChar.try_from c3 with err3 | ec3 <;>
          simp_all [Rotor.set_position, Except.map]
    · rcases h2 : EnigmaChar.try_from c2 with err2 | ec2
      · simp_all [Rotor.set_position, Except.map]
      · rcases o3 with _ | c3
        · simp_all [Rotor.set_position, Except.map]
        · rcases h3 : EnigmaChar.try_from c3 with err3 | ec3 <;>
            simp_all [Rotor.set_position, Except.map]
  · rcases h1 : EnigmaChar.try_from c1 with err1 | ec1
    · simp_all [Rotor.set_position, Except.map]
    · rcases o2 with _ | c2
      · rcases o3 with _ | c3
        · simp_all [Rotor.set_position, Except.map]
        · rcases h3 : EnigmaChar.try_from c3 with err3 | ec3 <;>
            simp_all [Rotor.set_position, Except.map]
      · rcases h2 : EnigmaChar.try_from c2 with err2 | ec2
        · simp_all [Rotor.set_position, Except.map]
        · rcases o3 with _ | c3
          · simp_all [Rotor.set_position, Except.map]
          · rcases h3 : EnigmaChar.try_from c3 with err3 | ec3 <;>
              simp_all [Rotor.set_position, Except.map]

/-- C9, counterexample: with the machine at positions "BBB", setting the
position string "A#B" fails (on '#') yet the left rotor has already
been moved to 'A': the failed operation leaves a partial update, so the
claim that all three rotor positions are unchanged is false. -/
theorem C9_counterexample :
    ((standardEnigma.set_position_str "BBB").2.set_position_str "A#B").1
      = .error (.InvalidChar '#')
    ∧ ((standardEnigma.set_position_str "BBB").2.set_position_str "A#B").2.get_position_str
      = "ABB"
    ∧ (standardEnigma.set_position_str "BBB").2.get_position_str = "BBB" := by
  refine ⟨by decide, by decide, by decide⟩

/-- C9, amended: when `set_position_str` returns an error, the right
rotor's position is unchanged and no wiring, the reflector or the
plugboard changes; a wrong-length string changes nothing, and a first
character that fails conversion changes nothing; rotors corresponding
to characters before the first invalid one may already be set (the
middle rotor is untouched whenever the second character is the one that
fails). -/
theorem C9_amended_thm (e : Enigma) (s : String) (err : EnigmaError)
    (h : (e.set_position_str s).1 = .error err) :
    (e.set_position_str s).2.rotor_r = e.rotor_r
    ∧ (e.set_position_str s).2.ukw = e.ukw
    ∧ (e.set_position_str s).2.steckerbrett = e.steckerbrett
    ∧ (e.set_position_str s).2.rotor_l.wiring = e.rotor_l.wiring
    ∧ (e.set_position_str s).2.rotor_m.wiring = e.rotor_m.wiring
    ∧ (s.utf8ByteSize ≠ 3 → (e.set_position_str s).2 = e)
    ∧ (∀ c, s.data[0]? = some c → EnigmaChar.try_from c = .error (.InvalidChar c) →
        (e.set_position_str s).2 = e)
    ∧ (∀ c, s.data[1]? = some c → EnigmaChar.try_from c = .error (.InvalidChar c) →
        (e.set_position_str s).2.rotor_m = e.rotor_m) := by
  unfold Enigma.set_position_str at h ⊢
  by_cases hlen : s.utf8ByteSize ≠ 3
  · simp [if_pos hlen]
  · simp only [if_neg hlen] at h ⊢
    obtain ⟨h1, h2, h3, h4, h5, h6, h7⟩ :=
      set_position_err e s.data[0]? s.data[1]? s.data[2]? err h
    exact ⟨h1, h2, h3, h4, h5, fun hl => absurd hl hlen, h6, h7⟩

/-- Witness for C9_amended_thm: the failing call of the counterexample,
whose right rotor indeed stays at 'B'. -/
theorem C9_amended_thm_witness :
    ((standardEnigma.set_position_str "BBB").2.set_position_str "A#B").1
      = .error (.InvalidChar '#')
    ∧ ((standardEnigma.set_position_str "BBB").2.set_position_str "A#B").2.rotor_r
      = (standardEnigma.set_position_str "BBB").2.rotor_r :=
  ⟨by decide,
   (C9_amended_thm (standardEnigma.set_position_str "BBB").2 "A#B"
     (.InvalidChar '#') (by decide)).1⟩

/-! ## C10: the string-level encode never fails -/

/-- The per-character operation either succeeds or reports exactly
`UnsupportedCharacter` on the offending character: `try_from` only
fails with `InvalidChar`, which `_internal_get_for_char` re-signals,
and the rotor passes always succeed. -/
theorem internal_result_shape (e : Enigma) (c : Char) :
    (e.internal_get_for_char c).1 = .error (.UnsupportedCharacter c)
    ∨ ∃ d, (e.internal_get_for_char c).1 = .ok d := by
  unfold Enigma.internal_get_for_char
  rcases h : EnigmaChar.try_from c with err | c0
  · have herr := try_from_error h
    subst herr
    left
    rfl
  · right
    exact ⟨_, rfl⟩

/-- The string-encoding loop always succeeds, whatever machine, flag
values and accumulated output: the only per-character error is
`UnsupportedCharacter` and the loop handles it. -/
theorem get_for_str_loop_ok (pu pc : Bool) :
    ∀ (cs : List Char) (e : Enigma) (out : String),
      ∃ o, (e.get_for_str_loop cs pu pc out).1 = .ok o := by
  intro cs
  induction cs with
  | nil => exact fun e out => ⟨out, rfl⟩
  | cons c rest ih =>
    intro e out
    unfold Enigma.get_for_str_loop
    rcases hpair : e.internal_get_for_char c with ⟨r, e1⟩
    rcases internal_result_shape e c with h | ⟨d, h⟩
    · rw [hpair] at h
      have h2 : r = .error (.UnsupportedCharacter c) := h
      subst h2
      dsimp only
      split
      · exact ih _ _
      · exact ih _ _
    · rw [hpair] at h
      have h2 : r = .ok d := h
      subst h2
      exact ih _ _

/-- C10: for every machine, input string and flag pair, the string-level
encode returns Ok: its error branch is unreachable because the only
error the per-character encode produces is `UnsupportedCharacter`,
which the loop converts into dropping or preserving the character. -/
theorem C10_thm (e : Enigma) (s : String) (preserve_unsupported preserve_case : Bool) :
    ∃ out, (e.get_for_str s preserve_unsupported preserve_case).1 = .ok out :=
  get_for_str_loop_ok preserve_unsupported preserve_case s.data e ""

/-! ## C7: the backward array inverts the forward array -/

/-- Packing a valid code point and reading it back is the identity. -/
theorem char_toNat_ofNat (n : Nat) (h : n.isValidChar) : (Char.ofNat n).toNat = n := by
  unfold Char.ofNat
  rw [dif_pos h]
  rfl

/-- The uppercase letter with alphabet position `k`, as rendered by
`EnigmaChar.toChar`. -/
def letterChar (k : Nat) : Char :=
  EnigmaChar.toChar { internal := k, uppercase := true }

/-- Code point of the `k`-th uppercase letter. -/
theorem letterChar_toNat (k : Nat) (hk : k < 26) : (letterChar k).toNat = k + 65 := by
  have h0 : letterChar k = Char.ofNat ((k + 65) % 256) := rfl
  rw [h0, Nat.mod_eq_of_lt (by omega)]
  exact char_toNat_ofNat _ (Or.inl (by omega))

/-- Distinct alphabet positions render as distinct letters. -/
theorem letterChar_inj (k k' : Nat) (hk : k < 26) (hk' : k' < 26)
    (h : letterChar k = letterChar k') : k = k' := by
  have h1 := congrArg Char.toNat h
  rw [letterChar_toNat k hk, letterChar_toNat k' hk'] at h1
  omega

/-- A character whose ASCII uppercasing is the `k`-th letter converts to
alphabet position `k`. -/
theorem try_from_of_upper (c : Char) (k : Nat) (hk : k < 26)
    (h : toAsciiUppercase c = letterChar k) :
    ∃ u, EnigmaChar.try_from c = .ok { internal := k, uppercase := u } := by
  unfold toAsciiUppercase at h
  by_cases hlc : 97 ≤ c.toNat ∧ c.toNat ≤ 122
  · rw [if_pos hlc] at h
    have h1 := congrArg Char.toNat h
    rw [char_toNat_ofNat _ (Or.inl (by omega)), letterChar_toNat k hk] at h1
    have hc : c.toNat = k + 97 := by omega
    refine ⟨false, ?_⟩
    unfold EnigmaChar.try_from charAsU8
    rw [hc, Nat.mod_eq_of_lt (by omega), if_neg (by omega), if_pos (by omega)]
    simp
  · rw [if_neg hlc] at h
    have h1 := congrArg Char.toNat h
    rw [letterChar_toNat k hk] at h1
    refine ⟨true, ?_⟩
    unfold EnigmaChar.try_from charAsU8
    rw [h1, Nat.mod_eq_of_lt (by omega), if_pos (by omega)]
    simp

/-- Contents of a successful `buildAt`: the forward entry comes from
converting the template character at `i`, and the backward entry is a
successful `findIdx?` on the uppercased template. -/
theorem buildAt_ok (template : List Char) (i fwd rev : Nat)
    (h : Wiring.buildAt template i = .ok (fwd, rev)) :
    (∃ u, EnigmaChar.try_from (template.getD i 'A') = .ok { internal := fwd, uppercase := u })
    ∧ template.findIdx?
        (fun x => toAsciiUppercase x == EnigmaChar.toChar { internal := i, uppercase := true })
        = some rev := by
  unfold Wiring.buildAt at h
  rcases he : EnigmaChar.try_from (template.getD i 'A') with err | e
  · rw [he] at h
    exact absurd h (by simp)
  · rw [he] at h
    dsimp only at h
    rcases hf : template.findIdx?
        (fun x => toAsciiUppercase x == EnigmaChar.toChar { internal := i, uppercase := true })
        with _ | j
    · rw [hf] at h
      exact absurd h (by simp)
    · rw [hf] at h
      dsimp only at h
      have h2 : ((e.internal, j) : Nat × Nat) = (fwd, rev) := by
        injection h
      have hfwd : e.internal = fwd := congrArg Prod.fst h2
      have hrev : j = rev := congrArg Prod.snd h2
      subst hfwd
      subst hrev
      exact ⟨⟨e.uppercase, rfl⟩, rfl⟩

/-- A successful `buildRange` has one entry per index, each produced by
the corresponding successful `buildAt`. -/
theorem buildRange_ok (template : List Char) :
    ∀ (n : Nat) (l : List (Nat × Nat)), Wiring.buildRange template n = .ok l →
      l.length = n ∧ ∀ k, k < n → Wiring.buildAt template k = .ok (l.getD k (0, 0)) := by
  intro n
  induction n with
  | zero =>
    intro l h
    unfold Wiring.buildRange at h
    have hl : ([] : List (Nat × Nat)) = l := by injection h
    subst hl
    exact ⟨rfl, by omega⟩
  | succ n ih =>
    intro l h
    unfold Wiring.buildRange at h
    rcases hprev : Wiring.buildRange template n with errp | prev
    · rw [hprev] at h
      exact absurd h (by simp)
    · rw [hprev] at h
      rcases hentry : Wiring.buildAt template n with erre | entry
      · rw [hentry] at h
        exact absurd h (by simp)
      · rw [hentry] at h
        have hl : prev ++ [entry] = l := by injection h
        subst hl
        obtain ⟨hlen, hall⟩ := ih prev hprev
        refine ⟨by simp [hlen], ?_⟩
        intro k hk
        rcases Nat.lt_or_ge k n with hk2 | hk2
        · rw [List.getD_eq_getElem?_getD, List.getElem?_append_left (by omega),
            ← List.getD_eq_getElem?_getD]
          exact hall k hk2
        · have hkn : k = n := by omega
          subst hkn
          rw [List.getD_eq_getElem?_getD]
          have hcat : (prev ++ [entry])[k]? = some entry := by
            have := List.getElem?_concat_length prev entry
            rw [hlen] at this
            exact this
          rw [hcat]
          exact hentry

/-- `getD` through `map`, for an in-range index. -/
theorem map_getD {α β : Type} (f : α → β) (l : List α) (i : Nat) (hi : i < l.length) (d : α) :
    (l.map f).getD i (f d) = f (l.getD i d) := by
  rw [List.getD_eq_getElem?_getD, List.getD_eq_getElem?_getD, List.getElem?_map,
    List.getElem?_eq_getElem hi]
  rfl

/-- C7: for every wiring table successfully constructed from a
26-letter template (the `[char; 26]` of the source), the backward array
is the functional inverse of the forward one:
`backward[forward[i]] = i` for every `i` in `[0, 25]`. -/
theorem C7_thm (template : List Char) (h26 : template.length = 26)
    (notch_1 notch_2 : Option Char) (w : Wiring)
    (hw : Wiring.new template notch_1 notch_2 = .ok w)
    (i : Nat) (hi : i < 26) :
    w.reverse_wiring.getD (w.wiring.getD i 0) 0 = i := by
  unfold Wiring.new at hw
  rcases hn1 : notchToNat notch_1 with e1 | n1
  · rw [hn1] at hw
    exact absurd hw (by simp)
  rw [hn1] at hw
  rcases hn2 : notchToNat notch_2 with e2 | n2
  · rw [hn2] at hw
    exact absurd hw (by simp)
  rw [hn2] at hw
  rcases hbr : Wiring.buildRange template 26 with eb | entries
  · rw [hbr] at hw
    exact absurd hw (by simp)
  rw [hbr] at hw
  have hwv : ({ wiring := entries.map Prod.fst, reverse_wiring := entries.map Prod.snd,
                notch_1 := n1, notch_2 := n2 } : Wiring) = w := by
    injection hw
  subst hwv
  obtain ⟨hlen, hall⟩ := buildRange_ok template 26 entries hbr
  -- each index k has a backward entry found by findIdx?, landing on a
  -- template position whose uppercasing is the k-th letter
  have key : ∀ k : Fin 26, ∃ j : Fin 26,
      (entries.getD k.val (0, 0)).2 = j.val
      ∧ toAsciiUppercase (template.getD j.val 'A')
          = EnigmaChar.toChar { internal := k.val, uppercase := true } := by
    intro k
    obtain ⟨_, hfind⟩ := buildAt_ok template k.val (entries.getD k.val (0, 0)).1
      (entries.getD k.val (0, 0)).2 (hall k.val k.isLt)
    obtain ⟨hjlt, hpred, _⟩ := List.findIdx?_eq_some_iff_getElem.mp hfind
    refine ⟨⟨(entries.getD k.val (0, 0)).2, by omega⟩, rfl, ?_⟩
    have hgd : template.getD (entries.getD k.val (0, 0)).2 'A'
        = template[(entries.getD k.val (0, 0)).2] := by
      rw [List.getD_eq_getElem?_getD, List.getElem?_eq_getElem hjlt]
      rfl
    rw [hgd]
    exact eq_of_beq hpred
  choose J hJ using key
  have hJinj : Function.Injective J := by
    intro a b hab
    have ha := (hJ a).2
    have hb := (hJ b).2
    rw [hab] at ha
    have hl : letterChar a.val = letterChar b.val := by
      unfold letterChar
      rw [← ha, hb]
    exact Fin.ext (letterChar_inj a.val b.val a.isLt b.isLt hl)
  have hJsurj : Function.Surjective J := Finite.injective_iff_surjective.mp hJinj
  obtain ⟨k, hk⟩ := hJsurj ⟨i, hi⟩
  -- the forward entry at i is k, because uppercasing template[i] gives the k-th letter
  obtain ⟨⟨u1, htf⟩, _⟩ := buildAt_ok template i (entries.getD i (0, 0)).1
    (entries.getD i (0, 0)).2 (hall i hi)
  have hupper : toAsciiUppercase (template.getD i 'A')
      = letterChar k.val := by
    have := (hJ k).2
    rw [hk] at this
    exact this
  obtain ⟨u2, htf2⟩ := try_from_of_upper (template.getD i 'A') k.val k.isLt hupper
  have hfwd : (entries.getD i (0, 0)).1 = k.val := by
    rw [htf] at htf2
    have h3 : ({ internal := (entries.getD i (0, 0)).1, uppercase := u1 } : EnigmaChar)
        = { internal := k.val, uppercase := u2 } := by
      injection htf2
    exact congrArg EnigmaChar.internal h3
  -- read off: wiring[i] = k, reverse_wiring[k] = J k = i
  have hwi : (entries.map Prod.fst).getD i 0 = (entries.getD i (0, 0)).1 :=
    map_getD Prod.fst entries i (by omega) (0, 0)
  have hrev : (entries.map Prod.snd).getD k.val 0 = (entries.getD k.val (0, 0)).2 :=
    map_getD Prod.snd entries k.val (by omega) (0, 0)
  show (entries.map Prod.snd).getD ((entries.map Prod.fst).getD i 0) 0 = i
  rw [hwi, hfwd, hrev, (hJ k).1, hk]

/-- Witness for C7_thm: rotor I's table, at index 0. -/
theorem C7_thm_witness :
    templateI.length = 26
    ∧ Wiring.new templateI (some 'Q') none = .ok StandardWiring.I
    ∧ (0 : Nat) < 26
    ∧ StandardWiring.I.reverse_wiring.getD (StandardWiring.I.wiring.getD 0 0) 0 = 0 :=
  ⟨by decide, by decide, by decide,
   C7_thm templateI (by decide) (some 'Q') none StandardWiring.I (by decide) 0 (by decide)⟩

/-! ## C1: the per-character encode is self-inverse -/

/-- The plugboard substitution on a bare position. -/
def sApply (s : Steckerbrett) (x : Nat) : Nat :=
  match s x with
  | some v => v
  | none => x

/-- The position arithmetic of one rotor pass through a given table. -/
def tableOut (t : List Nat) (p x : Nat) : Nat :=
  (t.getD ((x + p) % 26) 0 + 26 - p) % 26

/-- `Steckerbrett.get` in terms of `sApply`. -/
theorem stecker_get_eq (s : Steckerbrett) (c : EnigmaChar) :
    s.get c = { internal := sApply s c.internal, uppercase := c.uppercase } := by
  unfold Steckerbrett.get sApply
  cases s c.internal <;> rfl

/-- `Rotor.get_for` in terms of `tableOut`. -/
theorem rotor_get_for_eq (r : Rotor) (c : EnigmaChar) (rev : Bool) :
    r.get_for c rev =
      .ok { internal := tableOut (if rev then r.wiring.reverse_wiring else r.wiring.wiring)
              r.position c.internal,
            uppercase := c.uppercase } := by
  cases rev <;> rfl

/-- Binding a success just applies the continuation. -/
theorem except_bind_ok {ε α β : Type} (a : α) (f : α → Except ε β) :
    (Except.ok a : Except ε α) >>= f = f a := rfl

/-- A rotor pass always lands in `[0, 25]`. -/
theorem tableOut_lt (t : List Nat) (p x : Nat) : tableOut t p x < 26 :=
  Nat.mod_lt _ (by omega)

/-- Cancellation of two rotor passes through mutually inverse tables at
the same position offset. -/
theorem tableOut_inv (W R : List Nat) (p x : Nat) (hp : p < 26) (hx : x < 26)
    (hW : W.getD ((x + p) % 26) 0 < 26)
    (hR : R.getD (W.getD ((x + p) % 26) 0) 0 = (x + p) % 26) :
    tableOut R p (tableOut W p x) = x := by
  unfold tableOut
  have h1 : ((W.getD ((x + p) % 26) 0 + 26 - p) % 26 + p) % 26 = W.getD ((x + p) % 26) 0 := by
    omega
  rw [h1, hR]
  omega

/-- A wiring usable as a rotor: both tables take `[0, 25]` into
`[0, 25]` and are mutually inverse — exactly what `Wiring::new`
guarantees (compare C7) and what every catalog wiring satisfies. -/
abbrev wiringInvPair (w : Wiring) : Prop :=
  ∀ i, i < 26 →
    w.wiring.getD i 0 < 26 ∧ w.reverse_wiring.getD i 0 < 26
    ∧ w.reverse_wiring.getD (w.wiring.getD i 0) 0 = i
    ∧ w.wiring.getD (w.reverse_wiring.getD i 0) 0 = i

/-- A wiring usable as a reflector: its forward table is an involution
of `[0, 25]` (true of UKW-A/B/C). -/
abbrev wiringInvolutive (w : Wiring) : Prop :=
  ∀ i, i < 26 → w.wiring.getD i 0 < 26 ∧ w.wiring.getD (w.wiring.getD i 0) 0 = i

/-- A plugboard whose substitution is an involution of `[0, 25]` (true
of every plugboard built from disjoint pairs, in particular the empty
one). -/
abbrev steckerInvolutive (s : Steckerbrett) : Prop :=
  ∀ x, x < 26 → sApply s x < 26 ∧ sApply s (sApply s x) = x

/-- ASCII letters, the supported characters of the claim. -/
abbrev isAsciiLetter (c : Char) : Prop :=
  (65 ≤ c.toNat ∧ c.toNat ≤ 90) ∨ (97 ≤ c.toNat ∧ c.toNat ≤ 122)

/-- An ASCII letter converts successfully, to a position below 26, and
converting back yields the original character. -/
theorem ascii_try_from (c : Char) (hc : isAsciiLetter c) :
    ∃ ec, EnigmaChar.try_from c = .ok ec ∧ ec.internal < 26 ∧ ec.toChar = c := by
  have hb : charAsU8 c = c.toNat := Nat.mod_eq_of_lt (by rcases hc with h | h <;> omega)
  rcases hc with h | h
  · refine ⟨{ internal := c.toNat - 65, uppercase := true }, ?_, by dsimp only; omega, ?_⟩
    · unfold EnigmaChar.try_from
      rw [hb, if_pos (by omega)]
    · have h0 : ({ internal := c.toNat - 65, uppercase := true } : EnigmaChar).toChar
          = Char.ofNat ((c.toNat - 65 + 65) % 256) := rfl
      rw [h0, show (c.toNat - 65 + 65) % 256 = c.toNat by omega, Char.ofNat_toNat]
  · refine ⟨{ internal := c.toNat - 97, uppercase := false }, ?_, by dsimp only; omega, ?_⟩
    · unfold EnigmaChar.try_from
      rw [hb, if_neg (by omega), if_pos (by omega)]
    · have h0 : ({ internal := c.toNat - 97, uppercase := false } : EnigmaChar).toChar
          = Char.ofNat ((c.toNat - 97 + 97) % 256) := rfl
      rw [h0, show (c.toNat - 97 + 97) % 256 = c.toNat by omega, Char.ofNat_toNat]

/-- Converting a rendered in-range character recovers the same
`EnigmaChar`. -/
theorem try_from_toChar (d : Nat) (u : Bool) (hd : d < 26) :
    EnigmaChar.try_from (EnigmaChar.toChar { internal := d, uppercase := u })
      = .ok { internal := d, uppercase := u } := by
  cases u
  · have hcode : (EnigmaChar.toChar { internal := d, uppercase := false }).toNat = d + 97 := by
      have h0 : EnigmaChar.toChar { internal := d, uppercase := false }
          = Char.ofNat ((d + 97) % 256) := rfl
      rw [h0, Nat.mod_eq_of_lt (by omega)]
      exact char_toNat_ofNat _ (Or.inl (by omega))
    unfold EnigmaChar.try_from charAsU8
    rw [hcode, Nat.mod_eq_of_lt (by omega), if_neg (by omega), if_pos (by omega)]
    simp
  · have hcode : (EnigmaChar.toChar { internal := d, uppercase := true }).toNat = d + 65 := by
      have h0 : EnigmaChar.toChar { internal := d, uppercase := true }
          = Char.ofNat ((d + 65) % 256) := rfl
      rw [h0, Nat.mod_eq_of_lt (by omega)]
      exact char_toNat_ofNat _ (Or.inl (by omega))
    unfold EnigmaChar.try_from charAsU8
    rw [hcode, Nat.mod_eq_of_lt (by omega), if_pos (by omega)]
    simp

/-- The position computed by one full signal pass of
`_internal_get_for_char` on the (already turned) machine `e`. -/
def signalPath (e : Enigma) (x : Nat) : Nat :=
  sApply e.steckerbrett
    (tableOut e.rotor_r.wiring.reverse_wiring e.rotor_r.position
      (tableOut e.rotor_m.wiring.reverse_wiring e.rotor_m.position
        (tableOut e.rotor_l.wiring.reverse_wiring e.rotor_l.position
          (tableOut e.ukw.wiring.wiring e.ukw.position
            (tableOut e.rotor_l.wiring.wiring e.rotor_l.position
              (tableOut e.rotor_m.wiring.wiring e.rotor_m.position
                (tableOut e.rotor_r.wiring.wiring e.rotor_r.position
                  (sApply e.steckerbrett x))))))))

/-- The successful result of `_internal_get_for_char` is the signal
path applied on the turned machine, with the case flag untouched. -/
theorem internal_ok_value (e : Enigma) (c : Char) (ec : EnigmaChar)
    (htf : EnigmaChar.try_from c = .ok ec) :
    (e.internal_get_for_char c).1
      = .ok { internal := signalPath e.turn_rotors ec.internal,
              uppercase := ec.uppercase } := by
  unfold Enigma.internal_get_for_char
  rw [htf]
  dsimp only
  simp only [stecker_get_eq, rotor_get_for_eq, except_bind_ok, signalPath]
  rfl

/-- `turn_rotors` changes only rotor positions, and keeps all three in
`[0, 25]` when they were. -/
theorem turn_struct (e : Enigma)
    (hpl : e.rotor_l.position < 26) (hpm : e.rotor_m.position < 26)
    (hpr : e.rotor_r.position < 26) :
    (e.turn_rotors).ukw = e.ukw
    ∧ (e.turn_rotors).steckerbrett = e.steckerbrett
    ∧ (e.turn_rotors).rotor_l.wiring = e.rotor_l.wiring
    ∧ (e.turn_rotors).rotor_m.wiring = e.rotor_m.wiring
    ∧ (e.turn_rotors).rotor_r.wiring = e.rotor_r.wiring
    ∧ (e.turn_rotors).rotor_l.position < 26
    ∧ (e.turn_rotors).rotor_m.position < 26
    ∧ (e.turn_rotors).rotor_r.position < 26 := by
  unfold Enigma.turn_rotors Rotor.rotate
  cases e.rotor_r.has_notch <;> cases e.rotor_m.has_notch <;>
    refine ⟨rfl, rfl, rfl, rfl, rfl, ?_, ?_, ?_⟩ <;>
    simp <;> omega

/-- The signal path stays in `[0, 25]` for an involutive plugboard. -/
theorem signalPath_lt (e : Enigma) (x : Nat) (hs : steckerInvolutive e.steckerbrett) :
    signalPath e x < 26 := by
  unfold signalPath
  exact (hs _ (tableOut_lt _ _ _)).1

/-- The signal path is an involution of `[0, 25]` whenever the three
rotor wirings have mutually inverse tables, the reflector's forward
table is an involution, the plugboard is an involution, and all four
positions are in range. -/
theorem signalPath_invol (e : Enigma)
    (hl : wiringInvPair e.rotor_l.wiring) (hm : wiringInvPair e.rotor_m.wiring)
    (hr : wiringInvPair e.rotor_r.wiring)
    (hu : wiringInvolutive e.ukw.wiring)
    (hs : steckerInvolutive e.steckerbrett)
    (hpl : e.rotor_l.position < 26) (hpm : e.rotor_m.position < 26)
    (hpr : e.rotor_r.position < 26) (hpu : e.ukw.position < 26)
    (x : Nat) (hx : x < 26) :
    signalPath e (signalPath e x) = x := by
  unfold signalPath
  have hs0 : sApply e.steckerbrett x < 26 := (hs x hx).1
  have ha1 := tableOut_lt e.rotor_r.wiring.wiring e.rotor_r.position (sApply e.steckerbrett x)
  have ha2 := tableOut_lt e.rotor_m.wiring.wiring e.rotor_m.position
    (tableOut e.rotor_r.wiring.wiring e.rotor_r.position (sApply e.steckerbrett x))
  -- names for the chain of intermediate positions
  set s0 := sApply e.steckerbrett x with hdef0
  set a1 := tableOut e.rotor_r.wiring.wiring e.rotor_r.position s0 with hdef1
  set a2 := tableOut e.rotor_m.wiring.wiring e.rotor_m.position a1 with hdef2
  set a3 := tableOut e.rotor_l.wiring.wiring e.rotor_l.position a2 with hdef3
  set a4 := tableOut e.ukw.wiring.wiring e.ukw.position a3 with hdef4
  set a5 := tableOut e.rotor_l.wiring.reverse_wiring e.rotor_l.position a4 with hdef5
  set a6 := tableOut e.rotor_m.wiring.reverse_wiring e.rotor_m.position a5 with hdef6
  set a7 := tableOut e.rotor_r.wiring.reverse_wiring e.rotor_r.position a6 with hdef7
  have ha6 : a6 < 26 := tableOut_lt _ _ _
  have ha7 : a7 < 26 := tableOut_lt _ _ _
  have ha5 : a5 < 26 := tableOut_lt _ _ _
  have ha4 : a4 < 26 := tableOut_lt _ _ _
  have ha3 : a3 < 26 := tableOut_lt _ _ _
  -- outer plugboard cancels
  have hstep1 : sApply e.steckerbrett (sApply e.steckerbrett a7) = a7 := (hs a7 ha7).2
  rw [hstep1]
  -- forward right pass cancels the reverse right pass
  have hstep2 : tableOut e.rotor_r.wiring.wiring e.rotor_r.position a7 = a6 := by
    rw [hdef7]
    exact tableOut_inv _ _ _ _ hpr ha6
      (hr _ (Nat.mod_lt _ (by omega))).2.1
      (hr _ (Nat.mod_lt _ (by omega))).2.2.2
  rw [hstep2]
  have hstep3 : tableOut e.rotor_m.wiring.wiring e.rotor_m.position a6 = a5 := by
    rw [hdef6]
    exact tableOut_inv _ _ _ _ hpm ha5
      (hm _ (Nat.mod_lt _ (by omega))).2.1
      (hm _ (Nat.mod_lt _ (by omega))).2.2.2
  rw [hstep3]
  have hstep4 : tableOut e.rotor_l.wiring.wiring e.rotor_l.position a5 = a4 := by
    rw [hdef5]
    exact tableOut_inv _ _ _ _ hpl ha4
      (hl _ (Nat.mod_lt _ (by omega))).2.1
      (hl _ (Nat.mod_lt _ (by omega))).2.2.2
  rw [hstep4]
  have hstep5 : tableOut e.ukw.wiring.wiring e.ukw.position a4 = a3 := by
    rw [hdef4]
    exact tableOut_inv _ _ _ _ hpu ha3
      (hu _ (Nat.mod_lt _ (by omega))).1
      (hu _ (Nat.mod_lt _ (by omega))).2
  rw [hstep5]
  have hstep6 : tableOut e.rotor_l.wiring.reverse_wiring e.rotor_l.position a3 = a2 := by
    rw [hdef3]
    exact tableOut_inv _ _ _ _ hpl ha2
      (hl _ (Nat.mod_lt _ (by omega))).1
      (hl _ (Nat.mod_lt _ (by omega))).2.2.1
  rw [hstep6]
  have hstep7 : tableOut e.rotor_m.wiring.reverse_wiring e.rotor_m.position a2 = a1 := by
    rw [hdef2]
    exact tableOut_inv _ _ _ _ hpm ha1
      (hm _ (Nat.mod_lt _ (by omega))).1
      (hm _ (Nat.mod_lt _ (by omega))).2.2.1
  rw [hstep7]
  have hstep8 : tableOut e.rotor_r.wiring.reverse_wiring e.rotor_r.position a1 = s0 := by
    rw [hdef1]
    exact tableOut_inv _ _ _ _ hpr hs0
      (hr _ (Nat.mod_lt _ (by omega))).1
      (hr _ (Nat.mod_lt _ (by omega))).2.2.1
  rw [hstep8, hdef0]
  exact (hs x hx).2

/-- A machine with rotor I's wiring used as the reflector: a perfectly
constructible configuration whose reflector table is not an
involution. -/
def badReflEnigma : Enigma :=
  Enigma.new StandardWiring.I StandardWiring.I StandardWiring.II StandardWiring.III
    Steckerbrett.empty

/-- C1, counterexample: the claim quantifies over every machine
configuration, but with rotor I's (non-involutive) wiring as the
reflector, encoding 'A' gives 'J', and encoding 'J' on the machine
reset to the same start position "AAA" gives 'W', not 'A'. -/
theorem C1_counterexample :
    (badReflEnigma.get_for_char 'A').1 = .ok 'J'
    ∧ (badReflEnigma.get_for_char 'J').1 = .ok 'W'
    ∧ ('W' : Char) ≠ 'A' := by
  refine ⟨by decide, by decide, by decide⟩

/-- C1, amended: for every machine whose three rotor wirings have
mutually inverse tables into `[0, 25]` (as `Wiring::new` guarantees,
compare C7), whose reflector forward table is an involution of
`[0, 25]` (as for UKW-A/B/C), whose plugboard substitution is an
involution of `[0, 25]` (as for any plugboard built from disjoint
pairs), and whose rotor positions are in `[0, 25]`, and for every
ASCII-letter character c: if encoding c yields d, then encoding d on
the machine at the same starting state yields c. -/
theorem C1_amended_thm (e : Enigma)
    (hl : wiringInvPair e.rotor_l.wiring) (hm : wiringInvPair e.rotor_m.wiring)
    (hr : wiringInvPair e.rotor_r.wiring)
    (hu : wiringInvolutive e.ukw.wiring)
    (hs : steckerInvolutive e.steckerbrett)
    (hpl : e.rotor_l.position < 26) (hpm : e.rotor_m.position < 26)
    (hpr : e.rotor_r.position < 26) (hpu : e.ukw.position < 26)
    (c : Char) (hc : isAsciiLetter c) (d : Char)
    (h : (e.get_for_char c).1 = .ok d) :
    (e.get_for_char d).1 = .ok c := by
  obtain ⟨ec, htf, hlt, hback⟩ := ascii_try_from c hc
  obtain ⟨hu1, hs1, hwl, hwm, hwr, hl1, hm1, hr1⟩ := turn_struct e hpl hpm hpr
  have hmap : (e.get_for_char c).1 = ((e.internal_get_for_char c).1).map EnigmaChar.toChar :=
    rfl
  rw [hmap, internal_ok_value e c ec htf] at h
  simp only [Except.map] at h
  have hsturn : steckerInvolutive (e.turn_rotors).steckerbrett := by
    rw [hs1]
    exact hs
  have hD : signalPath e.turn_rotors ec.internal < 26 :=
    signalPath_lt _ _ hsturn
  have hd : EnigmaChar.toChar
      { internal := signalPath e.turn_rotors ec.internal, uppercase := ec.uppercase } = d := by
    injection h
  have htfd : EnigmaChar.try_from d
      = .ok { internal := signalPath e.turn_rotors ec.internal, uppercase := ec.uppercase } := by
    rw [← hd]
    exact try_from_toChar _ _ hD
  have hmap2 : (e.get_for_char d).1 = ((e.internal_get_for_char d).1).map EnigmaChar.toChar :=
    rfl
  rw [hmap2, internal_ok_value e d _ htfd]
  simp only [Except.map]
  have hinv : signalPath e.turn_rotors (signalPath e.turn_rotors ec.internal) = ec.internal := by
    refine signalPath_invol e.turn_rotors ?_ ?_ ?_ ?_ hsturn hl1 hm1 hr1 ?_ ec.internal hlt
    · rw [hwl]
      exact hl
    · rw [hwm]
      exact hm
    · rw [hwr]
      exact hr
    · rw [hu1]
      exact hu
    · rw [hu1]
      exact hpu
  rw [hinv]
  rw [show ({ internal := ec.internal, uppercase := ec.uppercase } : EnigmaChar) = ec from rfl,
    hback]

/-- Witness for C1_amended_thm: the standard machine at "AAA" encodes
'A' to 'B' and, reset, 'B' back to 'A'. -/
theorem C1_amended_thm_witness :
    wiringInvPair standardEnigma.rotor_l.wiring
    ∧ wiringInvPair standardEnigma.rotor_m.wiring
    ∧ wiringInvPair standardEnigma.rotor_r.wiring
    ∧ wiringInvolutive standardEnigma.ukw.wiring
    ∧ steckerInvolutive standardEnigma.steckerbrett
    ∧ isAsciiLetter 'A'
    ∧ (standardEnigma.get_for_char 'A').1 = .ok 'B'
    ∧ (standardEnigma.get_for_char 'B').1 = .ok 'A' :=
  ⟨by decide, by decide, by decide, by decide, by decide, by decide, by decide,
   C1_amended_thm standardEnigma (by decide) (by decide) (by decide) (by decide) (by decide)
     (by decide) (by decide) (by decide) (by decide) 'A' (by decide) 'B' (by decide)⟩
